import Mathlib

/-!
Shallow embedding of the QuantumSuperPosition-Go library
(`pkg/quantum/quantum.go`) in Lean 4, together with theorems settling
the specification claims about its combination and filtering engines.

Go dynamic values (`interface{}`) relevant to the library are modelled by
the inductive `Val`: integer scalars, double-precision scalars (modelled
as exact rationals, which agree with float64 on the small inputs used by
the claims), and text (which fails numeric coercion, standing in for every
non-numeric kind).  Operands of the public operations are either a bare
scalar or a `Superposition`, as in the Go API where every operation takes
`interface{}` and type-switches on `*Superposition`.  Where a claim's
truth depends on integers outside the float64-exact range, the rounding of
the real int-to-float64 conversion is modelled explicitly by
`float64OfInt` and the coercion/comparator variants built on it.
-/

namespace quantum

/-- Mirrors Go `SuperpositionType`: `Disjunctive` (any) or `Conjunctive` (all). -/
inductive SuperpositionType where
  | Disjunctive
  | Conjunctive
deriving DecidableEq, Repr

/-- A dynamic Go value as seen by the library: an integer kind, a floating
kind (exact rational model), or text (non-numeric). -/
inductive Val where
  | int : Int → Val
  | float : ℚ → Val
  | str : String → Val
deriving DecidableEq, Repr

/-- Mirrors Go `Superposition`: an ordered value sequence plus a mode tag. -/
structure Superposition where
  values : List Val
  typ : SuperpositionType
deriving DecidableEq, Repr

/-- An operand of a public operation: a bare scalar or a superposition. -/
inductive Operand where
  | scalar : Val → Operand
  | sup : Superposition → Operand

/-- Mirrors Go `Any`: a disjunctive superposition of the given values. -/
def Any (values : List Val) : Superposition :=
  { values := values, typ := SuperpositionType.Disjunctive }

/-- Mirrors Go `All`: a conjunctive superposition of the given values. -/
def All (values : List Val) : Superposition :=
  { values := values, typ := SuperpositionType.Conjunctive }

/-- Mirrors Go `getNumericValue`: coerce a value to float64, or signal
non-numeric (`none` models `reflect.Invalid`). -/
def getNumericValue : Val → Option ℚ
  | Val.int n => some (n : ℚ)
  | Val.float q => some q
  | Val.str _ => none

/-- Truncation toward zero of a rational, as Go float-to-int truncation
inside `math.Mod`.  `Rat.num.tdiv Rat.den` truncates toward zero. -/
def ratTrunc (q : ℚ) : Int := q.num.tdiv q.den

/-- Mirrors Go `math.Mod`: floating-point remainder, sign following the
dividend (fmod semantics), modelled exactly on rationals. -/
def goMathMod (x y : ℚ) : ℚ := x - (ratTrunc (x / y)) * y

/-- The five arithmetic operator runes of `performArithmetic`. -/
inductive ArithOp where
  | add
  | sub
  | mul
  | div
  | mod
deriving DecidableEq, Repr

/-- Mirrors Go `performArithmetic`: coerce both operands, fail on a
non-numeric operand, fail on a zero divisor for division and modulo,
otherwise return the float64 result. -/
def performArithmetic (a b : Val) (op : ArithOp) : Option Val :=
  match getNumericValue a, getNumericValue b with
  | some aVal, some bVal =>
    match op with
    | ArithOp.add => some (Val.float (aVal + bVal))
    | ArithOp.sub => some (Val.float (aVal - bVal))
    | ArithOp.mul => some (Val.float (aVal * bVal))
    | ArithOp.div =>
      if bVal = 0 then none else some (Val.float (aVal / bVal))
    | ArithOp.mod =>
      if bVal = 0 then none else some (Val.float (goMathMod aVal bVal))
  | _, _ => none

/-- Mirrors Go `addValues`. -/
def addValues (a b : Val) : Option Val := performArithmetic a b ArithOp.add

/-- Mirrors Go `subValues`. -/
def subValues (a b : Val) : Option Val := performArithmetic a b ArithOp.sub

/-- Mirrors Go `mulValues`. -/
def mulValues (a b : Val) : Option Val := performArithmetic a b ArithOp.mul

/-- Mirrors Go `divValues`. -/
def divValues (a b : Val) : Option Val := performArithmetic a b ArithOp.div

/-- Mirrors Go `modValues`. -/
def modValues (a b : Val) : Option Val := performArithmetic a b ArithOp.mod

/-- The three comparison operator runes of `performComparison`. -/
inductive CompOp where
  | lt
  | gt
  | eq
deriving DecidableEq, Repr

/-- Mirrors Go `performComparison`: coerce both operands, fail on a
non-numeric operand, otherwise return the boolean verdict. -/
def performComparison (a b : Val) (op : CompOp) : Option Bool :=
  match getNumericValue a, getNumericValue b with
  | some aVal, some bVal =>
    match op with
    | CompOp.lt => some (decide (aVal < bVal))
    | CompOp.gt => some (decide (bVal < aVal))
    | CompOp.eq => some (decide (aVal = bVal))
  | _, _ => none

/-- Mirrors Go `lessThanValues`. -/
def lessThanValues (a b : Val) : Option Bool := performComparison a b CompOp.lt

/-- Mirrors Go `greaterThanValues`. -/
def greaterThanValues (a b : Val) : Option Bool := performComparison a b CompOp.gt

/-- Mirrors Go `equalToValues`. -/
def equalToValues (a b : Val) : Option Bool := performComparison a b CompOp.eq

/-- Bounded upward search for the binade of a large magnitude: the smallest
exponent `e` (starting from the given one, with enough fuel for every
float64-range magnitude) such that `m < 2 ^ (53 + e)`. -/
def f64ExpSearch (m : Nat) : Nat → Nat → Nat
  | 0, e => e
  | fuel + 1, e => if m < 2 ^ (53 + e) then e else f64ExpSearch m fuel (e + 1)

/-- The exact rational value of the IEEE-754 binary64 (`float64`) number
nearest to the integer `n`, ties to even: the value of Go's conversion
`float64(v.Int())` inside `getNumericValue` for every 64-bit Go int (and
for every magnitude below the float64 overflow threshold).  A magnitude up
to `2 ^ 53` converts exactly; a larger magnitude lies in the binade
`[2 ^ (52 + e), 2 ^ (53 + e))` and is rounded to the nearest multiple of
its ulp `2 ^ e`, ties to the even quotient. -/
def float64OfInt (n : Int) : ℚ :=
  let m := n.natAbs
  if m ≤ 2 ^ 53 then (n : ℚ)
  else
    let e := f64ExpSearch m 1024 1
    let q := m / 2 ^ e
    let r := m % 2 ^ e
    let half := 2 ^ (e - 1)
    let mag := if half < r ∨ (r = half ∧ q % 2 = 1) then (q + 1) * 2 ^ e else q * 2 ^ e
    if n < 0 then -(mag : ℚ) else (mag : ℚ)

/-- Go `getNumericValue` with the integer branch carrying the rounding of
the real `float64(v.Int())` conversion, which the exact injection in
`getNumericValue` idealizes away (the two agree up to magnitude `2 ^ 53`,
and differ above it, where distinct integers can round to one double). -/
def getNumericValue64 : Val → Option ℚ
  | Val.int n => some (float64OfInt n)
  | Val.float q => some q
  | Val.str _ => none

/-- The `'='` case of Go `performComparison` over the rounding coercion
`getNumericValue64`: Go's `equalToValues` with the int-to-float64 rounding
made explicit. -/
def equalToValues64 (a b : Val) : Option Bool :=
  match getNumericValue64 a, getNumericValue64 b with
  | some aVal, some bVal => some (decide (aVal = bVal))
  | _, _ => none

/-- Mirrors Go `extractValues`: a superposition yields its values and mode,
a bare scalar yields a single-element disjunctive set. -/
def extractValues : Operand → List Val × SuperpositionType
  | Operand.sup s => (s.values, s.typ)
  | Operand.scalar v => ([v], SuperpositionType.Disjunctive)

/-- Mirrors the inner loop of Go `combineValues` for a fixed `av`: walk the
`b`-values in order, appending the result of each successful operation to
the accumulator and skipping pairs that return an error. -/
def combineInner (op : Val → Val → Option Val) (av : Val)
    (acc : List Val) : List Val → List Val
  | [] => acc
  | bv :: rest =>
    match op av bv with
    | none => combineInner op av acc rest
    | some res => combineInner op av (acc ++ [res]) rest

/-- Mirrors the outer loop of Go `combineValues`: run the inner loop for
each `a`-value in order, threading the accumulator. -/
def combineLoop (op : Val → Val → Option Val) (bVals : List Val)
    (acc : List Val) : List Val → List Val
  | [] => acc
  | av :: rest => combineLoop op bVals (combineInner op av acc bVals) rest

/-- Mirrors Go `combineValues`: cross-product evaluation plus mode promotion. -/
def combineValues (a b : Operand) (op : Val → Val → Option Val) :
    List Val × SuperpositionType :=
  let aE := extractValues a
  let bE := extractValues b
  let resultValues := combineLoop op bE.1 [] aE.1
  let resultTyp :=
    if aE.2 = SuperpositionType.Conjunctive ∨ bE.2 = SuperpositionType.Conjunctive
    then SuperpositionType.Conjunctive
    else SuperpositionType.Disjunctive
  (resultValues, resultTyp)

/-- Mirrors the inner loop of Go `compareValues` for one left value `av`:
scan the `b`-values in order; an errored comparison continues the scan; a
true verdict sets `match` and breaks (the Go break is unconditional, it is
not guarded on `b` being disjunctive); a false verdict breaks with `match`
still false when `b` is conjunctive and otherwise continues.  Returns the
final value of `match`. -/
def compareScan (comp : Val → Val → Option Bool) (av : Val)
    (bTyp : SuperpositionType) : List Val → Bool
  | [] => false
  | bv :: rest =>
    match comp av bv with
    | none => compareScan comp av bTyp rest
    | some true => true
    | some false =>
      if bTyp = SuperpositionType.Conjunctive then false
      else compareScan comp av bTyp rest

/-- Mirrors the outer loop of Go `compareValues`: append each left value
whose scan ends with `match = true`. -/
def compareLoop (comp : Val → Val → Option Bool) (bTyp : SuperpositionType)
    (bVals : List Val) (acc : List Val) : List Val → List Val
  | [] => acc
  | av :: rest =>
    compareLoop comp bTyp bVals
      (if compareScan comp av bTyp bVals then acc ++ [av] else acc) rest

/-- Mirrors Go `compareValues`: filter the left values by the
mode-dependent scan; the result keeps the left operand's mode. -/
def compareValues (a b : Operand) (comp : Val → Val → Option Bool) :
    List Val × SuperpositionType :=
  let aE := extractValues a
  let bE := extractValues b
  let resultValues := compareLoop comp bE.2 bE.1 [] aE.1
  (resultValues, aE.2)

/-- Mirrors Go `Add`. -/
def Add (a b : Operand) : Superposition :=
  let r := combineValues a b addValues
  { values := r.1, typ := r.2 }

/-- Mirrors Go `Subtract`. -/
def Subtract (a b : Operand) : Superposition :=
  let r := combineValues a b subValues
  { values := r.1, typ := r.2 }

/-- Mirrors Go `Multiply`. -/
def Multiply (a b : Operand) : Superposition :=
  let r := combineValues a b mulValues
  { values := r.1, typ := r.2 }

/-- Mirrors Go `Divide`. -/
def Divide (a b : Operand) : Superposition :=
  let r := combineValues a b divValues
  { values := r.1, typ := r.2 }

/-- Mirrors Go `Modulo`. -/
def Modulo (a b : Operand) : Superposition :=
  let r := combineValues a b modValues
  { values := r.1, typ := r.2 }

/-- Mirrors Go `LessThan`. -/
def LessThan (a b : Operand) : Superposition :=
  let r := compareValues a b lessThanValues
  { values := r.1, typ := r.2 }

/-- Mirrors Go `GreaterThan`. -/
def GreaterThan (a b : Operand) : Superposition :=
  let r := compareValues a b greaterThanValues
  { values := r.1, typ := r.2 }

/-- Mirrors Go `EqualTo`. -/
def EqualTo (a b : Operand) : Superposition :=
  let r := compareValues a b equalToValues
  { values := r.1, typ := r.2 }

/-- Mirrors Go `Superposition.IsTrue`: false when the value sequence is
empty, true otherwise. -/
def Superposition.IsTrue (s : Superposition) : Bool :=
  if s.values.length = 0 then false else true

/-- Mirrors Go `Superposition.Eigenstates`: returns the value sequence. -/
def Superposition.Eigenstates (s : Superposition) : List Val :=
  s.values

/-!
### Structural lemmas about the loops

These characterise the accumulator-threading loops of `combineValues` and
`compareValues` as `filterMap`/`flatten`/`filter` expressions.
-/

theorem combineInner_eq (op : Val → Val → Option Val) (av : Val)
    (bVals : List Val) : ∀ acc : List Val,
    combineInner op av acc bVals = acc ++ bVals.filterMap (fun bv => op av bv) := by
  induction bVals with
  | nil => intro acc; simp [combineInner]
  | cons bv rest ih =>
    intro acc
    cases h : op av bv with
    | none => simp [combineInner, h, ih]
    | some res => simp [combineInner, h, ih]

theorem combineLoop_eq (op : Val → Val → Option Val) (bVals : List Val)
    (aVals : List Val) : ∀ acc : List Val,
    combineLoop op bVals acc aVals =
      acc ++ (aVals.map (fun av => bVals.filterMap (fun bv => op av bv))).flatten := by
  induction aVals with
  | nil => intro acc; simp [combineLoop]
  | cons av rest ih =>
    intro acc
    simp [combineLoop, combineInner_eq, ih]

theorem compareLoop_eq (comp : Val → Val → Option Bool)
    (bTyp : SuperpositionType) (bVals : List Val) (aVals : List Val) :
    ∀ acc : List Val,
    compareLoop comp bTyp bVals acc aVals =
      acc ++ aVals.filter (fun av => compareScan comp av bTyp bVals) := by
  induction aVals with
  | nil => intro acc; simp [compareLoop]
  | cons av rest ih =>
    intro acc
    by_cases h : compareScan comp av bTyp bVals = true
    · simp [compareLoop, h, ih]
    · simp [compareLoop, h, ih]

theorem compareScan_exists (comp : Val → Val → Option Bool) (av : Val)
    (bVals : List Val) :
    compareScan comp av SuperpositionType.Disjunctive bVals = true ↔
      ∃ bv ∈ bVals, comp av bv = some true := by
  induction bVals with
  | nil => simp [compareScan]
  | cons bv rest ih =>
    cases h : comp av bv with
    | none => simp [compareScan, h, ih]
    | some b =>
      cases b with
      | true => simp [compareScan, h]
      | false => simp [compareScan, h, ih]

theorem compareScan_no_verdict (comp : Val → Val → Option Bool) (av : Val)
    (bTyp : SuperpositionType) :
    ∀ bVals : List Val, (∀ bv ∈ bVals, comp av bv = none) →
      compareScan comp av bTyp bVals = false := by
  intro bVals
  induction bVals with
  | nil => intro _; simp [compareScan]
  | cons bv rest ih =>
    intro h
    have hb : comp av bv = none := h bv (by simp)
    simp only [compareScan, hb]
    exact ih (fun x hx => h x (by simp [hx]))

theorem filterMap_all_some_length (op : Val → Val → Option Val) (av : Val) :
    ∀ bVals : List Val, (∀ bv ∈ bVals, (op av bv).isSome = true) →
      (bVals.filterMap (fun bv => op av bv)).length = bVals.length := by
  intro bVals
  induction bVals with
  | nil => intro _; simp
  | cons bv rest ih =>
    intro h
    rcases Option.isSome_iff_exists.mp (h bv (by simp)) with ⟨r, hr⟩
    simp [List.filterMap_cons, hr, ih (fun x hx => h x (by simp [hx]))]

theorem float64OfInt_exact (n : Int) (h : n.natAbs ≤ 2 ^ 53) :
    float64OfInt n = (n : ℚ) := by
  simp [float64OfInt, h]
  intro h2
  exact absurd h2 (not_lt.mpr h)

theorem equalToValues64_int (a b : Int) (ha : a.natAbs ≤ 2 ^ 53)
    (hb : b.natAbs ≤ 2 ^ 53) :
    equalToValues64 (Val.int a) (Val.int b) = some (decide (a = b)) := by
  simp only [equalToValues64, getNumericValue64, float64OfInt_exact a ha,
    float64OfInt_exact b hb, Option.some.injEq, decide_eq_decide]
  exact Int.cast_inj

theorem compareScan64_int_mem (a : Int) (B : List Int)
    (ha : a.natAbs ≤ 2 ^ 53) (hB : ∀ x ∈ B, x.natAbs ≤ 2 ^ 53) :
    compareScan equalToValues64 (Val.int a) SuperpositionType.Disjunctive
      (B.map Val.int) = decide (a ∈ B) := by
  apply Bool.coe_iff_coe.mp
  rw [compareScan_exists]
  constructor
  · rintro ⟨bv, hmem, htrue⟩
    rcases List.mem_map.mp hmem with ⟨b, hbB, rfl⟩
    rw [equalToValues64_int a b ha (hB b hbB)] at htrue
    simp only [Option.some.injEq, decide_eq_true_eq] at htrue
    simp [htrue, hbB]
  · intro hmem
    have haB : a ∈ B := by simpa using hmem
    refine ⟨Val.int a, List.mem_map_of_mem Val.int haB, ?_⟩
    rw [equalToValues64_int a a ha (hB a haB)]
    simp

theorem flatten_cross_length (op : Val → Val → Option Val) (bVals : List Val) :
    ∀ aVals : List Val,
      (∀ av ∈ aVals, ∀ bv ∈ bVals, (op av bv).isSome = true) →
      ((aVals.map (fun av => bVals.filterMap (fun bv => op av bv))).flatten).length =
        aVals.length * bVals.length := by
  intro aVals
  induction aVals with
  | nil => intro _; simp
  | cons av rest ih =>
    intro h
    simp only [List.map_cons, List.flatten_cons, List.length_append, List.length_cons]
    rw [filterMap_all_some_length op av bVals (fun bv hbv => h av (by simp) bv hbv),
      ih (fun x hx bv hbv => h x (by simp [hx]) bv hbv)]
    ring

/-!
### Claim theorems
-/

/-- C1: the claim fails on the code.  In `compareValues` the inner-loop
break on a true verdict is unconditional — the Go source reads
`if res { match = true; break }` before the conjunctive check — so a left
value is accepted as soon as the first verdict-yielding comparison against
a Conjunctive right operand holds, and the remaining `b`-values are never
scanned.  At the failing input `EqualTo(Any(1), All(1, 2))` the value 1 is
retained (and the result is true) although 1 is not equal to every
`b`-value, where the claim requires an empty result. -/
theorem c1_equalTo_all_accepts_on_first_true :
    (EqualTo (Operand.sup (Any [Val.int 1]))
        (Operand.sup (All [Val.int 1, Val.int 2]))).Eigenstates = [Val.int 1] ∧
      (EqualTo (Operand.sup (Any [Val.int 1]))
          (Operand.sup (All [Val.int 1, Val.int 2]))).IsTrue = true := by
  decide

/-- C2: the value sequence of an arithmetic result is exactly the sequence
of successful per-pair results of the cross product, visited in a-major,
b-minor order with duplicates retained; when no pair is excluded the
result length is `len(A) * len(B)`; and `Add(any(1,2,3), all(4,5))` has
eigenstates `[5, 6, 6, 7, 7, 8]`. -/
theorem c2_combine_cross_product_order :
    (∀ (a b : Operand) (op : Val → Val → Option Val),
        (combineValues a b op).1 =
          ((extractValues a).1.map
            (fun av => (extractValues b).1.filterMap (fun bv => op av bv))).flatten) ∧
      (∀ (aVals bVals : List Val) (op : Val → Val → Option Val),
        (∀ av ∈ aVals, ∀ bv ∈ bVals, (op av bv).isSome = true) →
          (combineValues (Operand.sup (Any aVals)) (Operand.sup (Any bVals))
              op).1.length = aVals.length * bVals.length) ∧
      (Add (Operand.sup (Any [Val.int 1, Val.int 2, Val.int 3]))
          (Operand.sup (All [Val.int 4, Val.int 5]))).Eigenstates =
        [Val.float 5, Val.float 6, Val.float 6, Val.float 7, Val.float 7,
          Val.float 8] := by
  refine ⟨?_, ?_, ?_⟩
  · intro a b op
    simp [combineValues, combineLoop_eq]
  · intro aVals bVals op h
    simp only [combineValues, extractValues, Any, combineLoop_eq, List.nil_append]
    exact flatten_cross_length op bVals aVals h
  · simp [Superposition.Eigenstates, Add, combineValues, combineLoop, combineInner,
      extractValues, Any, All, addValues, performArithmetic, getNumericValue]
    norm_num

/-- C2 witness: at `A = [1, 2]`, `B = [4]` and integer addition no pair is
excluded, so the result length is `2 * 1`. -/
theorem c2_combine_cross_product_order_witness :
    (combineValues (Operand.sup (Any [Val.int 1, Val.int 2]))
        (Operand.sup (Any [Val.int 4])) addValues).1.length =
      [Val.int 1, Val.int 2].length * [Val.int 4].length :=
  c2_combine_cross_product_order.2.1 [Val.int 1, Val.int 2] [Val.int 4]
    addValues (by decide)

/-- C3: the mode of every arithmetic result is Conjunctive exactly when one
of the operand modes is Conjunctive (a bare scalar extracting as a
Disjunctive singleton), so a Conjunctive mode is never demoted. -/
theorem c3_mode_promotion :
    (∀ (a b : Operand) (op : Val → Val → Option Val),
        ((combineValues a b op).2 = SuperpositionType.Conjunctive ↔
          ((extractValues a).2 = SuperpositionType.Conjunctive ∨
            (extractValues b).2 = SuperpositionType.Conjunctive))) ∧
      (∀ a b : Operand,
        (Add a b).typ = (combineValues a b addValues).2 ∧
        (Subtract a b).typ = (combineValues a b subValues).2 ∧
        (Multiply a b).typ = (combineValues a b mulValues).2 ∧
        (Divide a b).typ = (combineValues a b divValues).2 ∧
        (Modulo a b).typ = (combineValues a b modValues).2) ∧
      (∀ v : Val, (extractValues (Operand.scalar v)).2 = SuperpositionType.Disjunctive) := by
  refine ⟨?_, fun a b => ⟨rfl, rfl, rfl, rfl, rfl⟩, fun v => rfl⟩
  intro a b op
  by_cases h : (extractValues a).2 = SuperpositionType.Conjunctive ∨
      (extractValues b).2 = SuperpositionType.Conjunctive
  · simp [combineValues, h]
  · simp [combineValues, h]

/-- C4: arithmetic is total with silent per-pair exclusion: a per-pair
operation fails exactly when an operand fails numeric coercion or (for
division and modulo) the divisor coerces to zero, and a failed pair is
merely dropped; `Divide(any(1,2), any(0,2))` returns exactly the results
of the two `b = 2` pairs, with no error surfaced. -/
theorem c4_silent_pair_exclusion :
    (∀ a b : Val,
        (addValues a b = none ↔
          getNumericValue a = none ∨ getNumericValue b = none) ∧
        (subValues a b = none ↔
          getNumericValue a = none ∨ getNumericValue b = none) ∧
        (mulValues a b = none ↔
          getNumericValue a = none ∨ getNumericValue b = none)) ∧
      (∀ a b : Val,
        (divValues a b = none ↔
          getNumericValue a = none ∨ getNumericValue b = none ∨
            getNumericValue b = some 0) ∧
        (modValues a b = none ↔
          getNumericValue a = none ∨ getNumericValue b = none ∨
            getNumericValue b = some 0)) ∧
      (Divide (Operand.sup (Any [Val.int 1, Val.int 2]))
          (Operand.sup (Any [Val.int 0, Val.int 2]))).Eigenstates =
        [Val.float (1 / 2), Val.float 1] := by
  refine ⟨?_, ?_, ?_⟩
  · intro a b
    rcases ha : getNumericValue a with _ | qa <;>
      rcases hb : getNumericValue b with _ | qb <;>
        simp [addValues, subValues, mulValues, performArithmetic, ha, hb]
  · intro a b
    rcases ha : getNumericValue a with _ | qa
    · simp [divValues, modValues, performArithmetic, ha]
    · rcases hb : getNumericValue b with _ | qb
      · simp [divValues, modValues, performArithmetic, ha, hb]
      · by_cases hq : qb = 0 <;>
          simp [divValues, modValues, performArithmetic, ha, hb, hq]
  · simp [Superposition.Eigenstates, Divide, combineValues, combineLoop, combineInner,
      extractValues, Any, divValues, performArithmetic, getNumericValue]

/-- C5 counterexample: the claim's intersection equality fails on the code
for integers above the float64-exact range.  Go's `getNumericValue`
coerces an int with `float64(v.Int())`, and `float64(2^53 + 1)` rounds to
`2^53` (ties to even), so `EqualTo(any(9007199254740993),
any(9007199254740992))` — the comparison pipeline evaluated over the
rounding coercion `equalToValues64` — retains 9007199254740993, while the
exact set-intersection of A and B is empty. -/
theorem c5_exact_intersection_counterexample :
    (compareValues (Operand.sup (Any [Val.int 9007199254740993]))
        (Operand.sup (Any [Val.int 9007199254740992])) equalToValues64).1 =
      [Val.int 9007199254740993] ∧
      ([(9007199254740993 : Int)].filter
          (fun x => decide (x ∈ [(9007199254740992 : Int)]))).map Val.int =
        ([] : List Val) := by
  decide

/-- C5 (amended): for a Disjunctive right operand the scan accepts a left
value exactly when some `b`-value yields a true verdict (stopping at the
first match), and filtering keeps exactly the accepted left values in
order; `EqualTo(any(A), any(B))` over integer lists — its comparator
modelled with the real int-to-float64 rounding, `equalToValues64` —
returns the members of `A` also in `B`, in `A`'s order with duplicates
retained, provided every element of `A` and `B` is exactly representable
in float64 (magnitude at most `2^53`); above that range the coercion can
collapse distinct integers (see the counterexample). -/
theorem c5_disjunctive_existential_amended :
    (∀ (comp : Val → Val → Option Bool) (av : Val) (bVals : List Val),
        compareScan comp av SuperpositionType.Disjunctive bVals = true ↔
          ∃ bv ∈ bVals, comp av bv = some true) ∧
      (∀ (t : SuperpositionType) (aVals bVals : List Val)
          (comp : Val → Val → Option Bool),
        (compareValues (Operand.sup { values := aVals, typ := t })
            (Operand.sup (Any bVals)) comp).1 =
          aVals.filter
            (fun av => compareScan comp av SuperpositionType.Disjunctive bVals)) ∧
      (∀ A B : List Int,
        (∀ x ∈ A, x.natAbs ≤ 2 ^ 53) → (∀ x ∈ B, x.natAbs ≤ 2 ^ 53) →
          (compareValues (Operand.sup (Any (A.map Val.int)))
              (Operand.sup (Any (B.map Val.int))) equalToValues64).1 =
            (A.filter (fun x => decide (x ∈ B))).map Val.int) := by
  refine ⟨compareScan_exists, ?_, ?_⟩
  · intro t aVals bVals comp
    simp [compareValues, compareLoop_eq, extractValues, Any]
  · intro A B hA hB
    simp only [compareValues, compareLoop_eq, extractValues, Any, List.nil_append]
    rw [List.filter_map]
    simp only [Function.comp_def]
    rw [List.filter_congr (fun x hx => compareScan64_int_mem x B (hA x hx) hB)]

/-- C5 witness: at `A = [3, 7]`, `B = [7]` every element is float64-exact
and the filtered result is the intersection `[7]`. -/
theorem c5_disjunctive_existential_amended_witness :
    (compareValues (Operand.sup (Any [Val.int 3, Val.int 7]))
        (Operand.sup (Any [Val.int 7])) equalToValues64).1 =
      ([(3 : Int), 7].filter (fun x => decide (x ∈ [(7 : Int)]))).map Val.int :=
  c5_disjunctive_existential_amended.2.2 [3, 7] [7] (by decide) (by decide)

/-- C6: the mode of every filtering result is the left operand's mode, for
every right operand (so the right operand's mode never affects the result
tag); a bare scalar left operand extracts as Disjunctive. -/
theorem c6_filter_keeps_left_mode :
    (∀ (a b : Operand) (comp : Val → Val → Option Bool),
        (compareValues a b comp).2 = (extractValues a).2) ∧
      (∀ a b : Operand,
        (LessThan a b).typ = (extractValues a).2 ∧
        (GreaterThan a b).typ = (extractValues a).2 ∧
        (EqualTo a b).typ = (extractValues a).2) ∧
      (∀ v : Val, (extractValues (Operand.scalar v)).2 = SuperpositionType.Disjunctive) :=
  ⟨fun _ _ _ => rfl, fun _ _ => ⟨rfl, rfl, rfl⟩, fun _ => rfl⟩

/-- C7: `IsTrue` holds exactly when the value sequence is non-empty,
for every superposition of either mode, with no further inspection of the
stored values. -/
theorem c7_isTrue_iff_nonempty :
    ∀ s : Superposition, s.IsTrue = true ↔ 0 < s.Eigenstates.length := by
  intro s
  by_cases h : s.values.length = 0 <;>
    simp [Superposition.IsTrue, Superposition.Eigenstates, h, Nat.pos_of_ne_zero]

/-- C8: an empty operand is absorbing under combination: if either operand
extracts to an empty value sequence, the cross-product result is empty; in
particular `Add(All(), x)` is empty for every operand `x`, so no value can
be accumulated into an initially empty superposition by repeated `Add`. -/
theorem c8_empty_operand_absorbing :
    (∀ (a b : Operand) (op : Val → Val → Option Val),
        ((extractValues a).1 = [] ∨ (extractValues b).1 = []) →
          (combineValues a b op).1 = []) ∧
      (∀ x : Operand, (Add (Operand.sup (All [])) x).values = []) := by
  refine ⟨?_, fun x => rfl⟩
  intro a b op h
  rcases h with h | h
  · simp [combineValues, combineLoop_eq, h]
  · simp [combineValues, combineLoop_eq, h, List.flatten_eq_nil_iff]

/-- C8 witness: `Add(All(), 7)` has no eigenstates. -/
theorem c8_empty_operand_absorbing_witness :
    (combineValues (Operand.sup (All [])) (Operand.scalar (Val.int 7))
        addValues).1 = [] :=
  c8_empty_operand_absorbing.1 (Operand.sup (All []))
    (Operand.scalar (Val.int 7)) addValues (Or.inl rfl)

/-- C9: a left value for which no comparison yields a verdict — the right
value sequence is empty or every comparison errors — is rejected whatever
the right operand's mode is: the scan ends with `match` still false, so
universal quantification is never vacuously satisfied. -/
theorem c9_no_verdict_rejects :
    (∀ (comp : Val → Val → Option Bool) (av : Val) (bTyp : SuperpositionType)
        (bVals : List Val),
        (∀ bv ∈ bVals, comp av bv = none) →
          compareScan comp av bTyp bVals = false) ∧
      (∀ (a : Operand) (bTyp : SuperpositionType)
          (comp : Val → Val → Option Bool),
        (compareValues a (Operand.sup { values := [], typ := bTyp }) comp).1 = []) := by
  refine ⟨fun comp av bTyp bVals h => compareScan_no_verdict comp av bTyp bVals h, ?_⟩
  intro a bTyp comp
  simp [compareValues, compareLoop_eq, compareScan]

/-- C9 witness: comparing the number 10 against the text value "cat" yields
no verdict, so the scan against a Conjunctive right operand ends false. -/
theorem c9_no_verdict_rejects_witness :
    compareScan lessThanValues (Val.int 10) SuperpositionType.Conjunctive
      [Val.str "cat"] = false :=
  c9_no_verdict_rejects.1 lessThanValues (Val.int 10)
    SuperpositionType.Conjunctive [Val.str "cat"] (by decide)

/-- C10: every successful per-pair arithmetic result is tagged as a
double-precision float, even for integer inputs — `Add(2, 3)` stores the
float 5.0, not the integer 5 — while the `Any`/`All` constructors store the
caller's values unchanged. -/
theorem c10_arith_results_are_floats :
    (∀ (a b : Val) (op : ArithOp) (r : Val),
        performArithmetic a b op = some r → ∃ q : ℚ, r = Val.float q) ∧
      ((Add (Operand.scalar (Val.int 2)) (Operand.scalar (Val.int 3))).values =
        [Val.float 5]) ∧
      (∀ vs : List Val, (Any vs).values = vs ∧ (All vs).values = vs) := by
  refine ⟨?_, ?_, fun vs => ⟨rfl, rfl⟩⟩
  · intro a b op r h
    rcases ha : getNumericValue a with _ | qa
    · simp [performArithmetic, ha] at h
    rcases hb : getNumericValue b with _ | qb
    · simp [performArithmetic, ha, hb] at h
    cases op with
    | add => simp [performArithmetic, ha, hb] at h; exact ⟨_, h.symm⟩
    | sub => simp [performArithmetic, ha, hb] at h; exact ⟨_, h.symm⟩
    | mul => simp [performArithmetic, ha, hb] at h; exact ⟨_, h.symm⟩
    | div =>
      by_cases hq : qb = 0 <;> simp [performArithmetic, ha, hb, hq] at h
      exact ⟨_, h.symm⟩
    | mod =>
      by_cases hq : qb = 0 <;> simp [performArithmetic, ha, hb, hq] at h
      exact ⟨_, h.symm⟩
  · simp [Add, combineValues, combineLoop, combineInner, extractValues,
      addValues, performArithmetic, getNumericValue]
    norm_num

/-- C10 witness: the successful pair `2 + 3` yields a float-tagged value. -/
theorem c10_arith_results_are_floats_witness :
    ∃ q : ℚ, Val.float (((2 : Int) : ℚ) + ((3 : Int) : ℚ)) = Val.float q :=
  c10_arith_results_are_floats.1 (Val.int 2) (Val.int 3) ArithOp.add
    (Val.float (((2 : Int) : ℚ) + ((3 : Int) : ℚ))) rfl
